import Mathlib

/-!
Verification of the core components of the ELLIO Traefik forward-auth
sidecar, shallowly embedded from the Go sources: the access-decision
handler, the readiness endpoint, the EDL line parser, the retry and
circuit-breaker logic of the log shipper, the leaky bucket, the ring
buffer, and the deleted latch of the token manager.

Modelling conventions: wall-clock instants are natural numbers (seconds
or, where noted, abstract ticks); time.Since t in Go is now - t;
machine integers (int, int32, int64) are modelled as Int or Nat where no
wraparound is reachable in the modelled scope; external library
functions (netip.ParseAddr, netip.ParsePrefix, the netipx set types) are
abstracted as parameters, since only their success or failure steers the
modelled control flow.
-/

namespace ForwardAuth

/-! ## Access handler (src/auth/handler.go) -/

/-- HTTP status codes the forward-auth handler can answer with. -/
inductive Status where
  | s200 : Status
  | s400 : Status
  | s403 : Status
deriving DecidableEq, Repr

/-- Decision-relevant state of auth.Handler.  The matcher field is
abstracted to its Contains function on parsed addresses; the address
type netip.Addr is abstracted as the type parameter A.  The fields
logShipper, deviceID and ipHeaderOverride do not influence the
allow/deny decision and are omitted. -/
structure Handler (A : Type) where
  matcherContains : A → Bool
  isBlocklist : Bool
  deploymentEnabled : Bool

/-- Translation of Handler.evaluateAccess (src/auth/handler.go lines
117-133).  P models netip.ParseAddr; the Go error value is modelled as
Unit. -/
def evaluateAccess {A : Type} (h : Handler A) (P : String → Option A)
    (clientIP : String) : Except Unit Bool :=
  if !h.deploymentEnabled then
    Except.ok true
  else
    match P clientIP with
    | none => Except.error ()
    | some addr =>
      let inList := h.matcherContains addr
      Except.ok (h.isBlocklist != inList)

/-- Translation of Handler.ServeHTTP (src/auth/handler.go lines 51-94)
restricted to the response status.  clientIP is the string returned by
extractClientIP; the empty string triggers the 400 branch, an
evaluateAccess error triggers the invalid-IP 400 branch, and otherwise
the decision selects 200 or 403 (serveForbidden always writes 403,
whether HTML or plain text). -/
def serveHTTP {A : Type} (h : Handler A) (P : String → Option A)
    (clientIP : String) : Status :=
  if clientIP = "" then
    Status.s400
  else
    match evaluateAccess h P clientIP with
    | Except.error _ => Status.s400
    | Except.ok true => Status.s200
    | Except.ok false => Status.s403

/-! ## Readiness endpoint (src/auth/handler.go, HealthHandler.Ready) -/

/-- Translation of HealthHandler.Ready (lines 240-266): returns the
response status code and body.  lastUpdate is in seconds with 0
encoding the Go zero time (lastUpdate.IsZero()); entryCount is the
int64 entry count; time.Since(lastUpdate) is now - lastUpdate; two
hours is 7200 seconds. -/
def Ready (lastUpdate : Nat) (entryCount : Int) (now : Nat) : Nat × String :=
  if lastUpdate = 0 || entryCount == 0 then
    (503, "Not ready - EDL not yet loaded")
  else if (now : Int) - (lastUpdate : Int) > 7200 then
    (503, "Not ready - EDL data is stale")
  else
    (200, "Ready")

/-! ## EDL parser (src/unnamed/part_005, Fetcher.parseEDL) -/

/-- Translation of the scanner loop of Fetcher.parseEDL (lines 88-126).
The input is the list of lines produced by the bufio scanner; pc models
netip.ParsePrefix, pa models netip.ParseAddr, toPfx models the
promotion of a bare address to a host prefix (netipx IPSetBuilder.Add).
acc models the contents of the IPSetBuilder in insertion order and
count the int64 counter. -/
def parseEDLLoop {Pfx Ad : Type} (pc : String → Option Pfx)
    (pa : String → Option Ad) (toPfx : Ad → Pfx)
    (acc : List Pfx) (count : Int) : List String → List Pfx × Int
  | [] => (acc, count)
  | l :: ls =>
    let line := l.trim
    if line = "" || line.startsWith "#" then
      parseEDLLoop pc pa toPfx acc count ls
    else
      match pc line with
      | some p => parseEDLLoop pc pa toPfx (acc ++ [p]) (count + 1) ls
      | none =>
        match pa line with
        | some a => parseEDLLoop pc pa toPfx (acc ++ [toPfx a]) (count + 1) ls
        | none => parseEDLLoop pc pa toPfx acc count ls

/-- Fetcher.parseEDL: run the scanner loop from an empty builder and a
zero counter; the result models the pair (IPSet contents, count). -/
def parseEDL {Pfx Ad : Type} (pc : String → Option Pfx)
    (pa : String → Option Ad) (toPfx : Ad → Pfx)
    (lines : List String) : List Pfx × Int :=
  parseEDLLoop pc pa toPfx [] 0 lines

/-- Spec-side classification of a single line, written from the wording of the spec: trim whitespace; skip empty lines and lines starting with a hash mark;
parse as CIDR prefix, or failing that as a single address promoted to a
host prefix; unparseable lines yield nothing. -/
def acceptedEntry {Pfx Ad : Type} (pc : String → Option Pfx)
    (pa : String → Option Ad) (toPfx : Ad → Pfx) (l : String) : Option Pfx :=
  let line := l.trim
  if line = "" || line.startsWith "#" then none
  else
    match pc line with
    | some p => some p
    | none =>
      match pa line with
      | some a => some (toPfx a)
      | none => none

theorem parseEDLLoop_eq {Pfx Ad : Type} (pc : String → Option Pfx)
    (pa : String → Option Ad) (toPfx : Ad → Pfx)
    (lines : List String) (acc : List Pfx) (count : Int) :
    parseEDLLoop pc pa toPfx acc count lines =
      (acc ++ lines.filterMap (acceptedEntry pc pa toPfx),
        count + ((lines.filterMap (acceptedEntry pc pa toPfx)).length : Int)) := by
  induction lines generalizing acc count with
  | nil => simp [parseEDLLoop]
  | cons l ls ih =>
    by_cases h1 : l.trim = "" || (l.trim).startsWith "#"
    · simp [parseEDLLoop, acceptedEntry, h1, ih]
    · cases hpc : pc l.trim with
      | some p =>
        simp [parseEDLLoop, acceptedEntry, h1, hpc, ih, List.append_assoc]
        try omega
      | none =>
        cases hpa : pa l.trim with
        | some a =>
          simp [parseEDLLoop, acceptedEntry, h1, hpc, hpa, ih, List.append_assoc]
          try omega
        | none =>
          simp [parseEDLLoop, acceptedEntry, h1, hpc, hpa, ih]

/-- Claim C5: for every input (as the list of scanned lines), parseEDL
processes it line by line — trimming whitespace, skipping empty and
hash-comment lines, parsing each remaining line as a CIDR prefix or
else as a single address promoted to a host prefix, silently skipping
unparseable lines — and returns exactly the accepted prefixes together
with a count equal to the number of accepted lines. -/
theorem c5_parseEDL_characterization {Pfx Ad : Type} (pc : String → Option Pfx)
    (pa : String → Option Ad) (toPfx : Ad → Pfx) (lines : List String) :
    parseEDL pc pa toPfx lines =
      (lines.filterMap (acceptedEntry pc pa toPfx),
        ((lines.filterMap (acceptedEntry pc pa toPfx)).length : Int)) := by
  rw [parseEDL, parseEDLLoop_eq]
  simp

/-- Claim C1: for every request whose extracted client IP string parses
as a valid IP address (P clientIP = some addr, and the empty string
never parses, as with netip.ParseAddr), the response of the handler is 200
or 403, and it is 200 if and only if the deployment is not enabled, or
the mode is allowlist and the IP is in the current set, or the mode is
blocklist and the IP is not in the current set. -/
theorem c1_handler_decision {A : Type} (h : Handler A) (P : String → Option A)
    (clientIP : String) (addr : A)
    (hP0 : P "" = none) (hPa : P clientIP = some addr) :
    (serveHTTP h P clientIP = Status.s200 ∨ serveHTTP h P clientIP = Status.s403) ∧
      (serveHTTP h P clientIP = Status.s200 ↔
        (h.deploymentEnabled = false ∨
          (h.isBlocklist = false ∧ h.matcherContains addr = true) ∨
          (h.isBlocklist = true ∧ h.matcherContains addr = false))) := by
  have hne : clientIP ≠ "" := by
    intro hc
    rw [hc, hP0] at hPa
    exact Option.noConfusion hPa
  cases he : h.deploymentEnabled with
  | false =>
    simp [serveHTTP, evaluateAccess, hne, he]
  | true =>
    cases hb : h.isBlocklist with
    | false =>
      cases hm : h.matcherContains addr with
      | false => simp [serveHTTP, evaluateAccess, hne, he, hb, hm, hPa]
      | true => simp [serveHTTP, evaluateAccess, hne, he, hb, hm, hPa]
    | true =>
      cases hm : h.matcherContains addr with
      | false => simp [serveHTTP, evaluateAccess, hne, he, hb, hm, hPa]
      | true => simp [serveHTTP, evaluateAccess, hne, he, hb, hm, hPa]

/-- Concrete instantiation of the C1 theorem: a blocklist handler whose
set contains nothing answers 200 to a parseable client IP. -/
theorem c1_handler_decision_witness :
    (serveHTTP (Handler.mk (fun _ : Unit => false) true true)
        (fun s => if s = "" then none else some ()) "203.0.113.9" = Status.s200 ∨
      serveHTTP (Handler.mk (fun _ : Unit => false) true true)
        (fun s => if s = "" then none else some ()) "203.0.113.9" = Status.s403) ∧
      (serveHTTP (Handler.mk (fun _ : Unit => false) true true)
          (fun s => if s = "" then none else some ()) "203.0.113.9" = Status.s200 ↔
        (false = false ∨ (true = false ∧ false = true) ∨ (true = true ∧ false = false))) := by
  have h := c1_handler_decision (Handler.mk (fun _ : Unit => false) true true)
    (fun s => if s = "" then none else some ()) "203.0.113.9" ()
    (by simp) (by simp)
  simpa using h

/-- Claim C9: with the deployment enabled, for every parse function,
matcher set and client IP that parses to an address, flipping the mode
between allowlist and blocklist complements the allow/deny decision. -/
theorem c9_mode_flip_complements {A : Type} (c : A → Bool) (b : Bool)
    (P : String → Option A) (clientIP : String) (r : Bool)
    (h1 : evaluateAccess (Handler.mk c b true) P clientIP = Except.ok r) :
    evaluateAccess (Handler.mk c (!b) true) P clientIP = Except.ok (!r) := by
  cases hPa : P clientIP with
  | none =>
    simp [evaluateAccess, hPa] at h1
  | some addr =>
    cases b <;> cases hc : c addr <;>
        simp [evaluateAccess, hPa, hc] at h1 ⊢ <;> simp_all

/-- Concrete instantiation of the C9 theorem: on a singleton set under
allowlist a member IP is allowed, so under blocklist it is denied. -/
theorem c9_mode_flip_complements_witness :
    evaluateAccess (Handler.mk (fun _ : Unit => true) (!false) true)
      (fun _ => some ()) "198.51.100.1" = Except.ok (!true) := by
  have h := c9_mode_flip_complements (fun _ : Unit => true) false
    (fun _ => some ()) "198.51.100.1" true (by rfl)
  exact h

/-- Claim C10: when the deployment is not enabled, evaluateAccess
returns allowed without consulting the parse function (the result is
the same for every parse function P, including one that fails on every
string), so every request with a non-empty client IP string — valid or
not — receives 200, and the invalid-IP 400 branch is unreachable. -/
theorem c10_disabled_allows_all {A : Type} (c : A → Bool) (b : Bool)
    (P : String → Option A) (clientIP : String) (hne : clientIP ≠ "") :
    serveHTTP (Handler.mk c b false) P clientIP = Status.s200 ∧
      evaluateAccess (Handler.mk c b false) P clientIP = Except.ok true ∧
      (∀ Q : String → Option A,
        evaluateAccess (Handler.mk c b false) Q clientIP =
          evaluateAccess (Handler.mk c b false) P clientIP) := by
  refine ⟨?_, ?_, ?_⟩
  · simp [serveHTTP, evaluateAccess, hne]
  · simp [evaluateAccess]
  · intro Q
    simp [evaluateAccess]

/-- Concrete instantiation of the C10 theorem: with the deployment
disabled, the syntactically invalid client IP string "not-an-ip" gets
200 even though no parse function accepts it. -/
theorem c10_disabled_allows_all_witness :
    serveHTTP (Handler.mk (fun _ : Unit => true) true false)
        (fun _ => none) "not-an-ip" = Status.s200 ∧
      evaluateAccess (Handler.mk (fun _ : Unit => true) true false)
          (fun _ => none) "not-an-ip" = Except.ok true ∧
      (∀ Q : String → Option Unit,
        evaluateAccess (Handler.mk (fun _ : Unit => true) true false) Q "not-an-ip" =
          evaluateAccess (Handler.mk (fun _ : Unit => true) true false)
            (fun _ => none) "not-an-ip") :=
  c10_disabled_allows_all (fun _ : Unit => true) true (fun _ => none) "not-an-ip"
    (by simp)

/-- Counterexample to claim C4 as stated.  First input: an EDL update
has completed (nonzero last-update instant) and is 0 seconds old, yet
because the entry count is zero the endpoint answers 503, where the
claim demands 200.  Second input: the last update is exactly 2 hours
(7200 s) old — not `less than 2 hours` — yet the endpoint answers 200
"Ready", where the claim demands 503. -/
theorem c4_ready_counterexample :
    Ready 100 0 100 = (503, "Not ready - EDL not yet loaded") ∧
      Ready 100 5 7300 = (200, "Ready") := by
  constructor <;> rfl

/-- Claim C4 as amended: the /ready endpoint returns 200 with body
"Ready" if and only if the last-update instant is nonzero, the entry
count is nonzero, and the last update is at most 2 hours old; in every
other case it returns 503. -/
theorem c4_ready_amended (lastUpdate : Nat) (entryCount : Int) (now : Nat) :
    (Ready lastUpdate entryCount now = (200, "Ready") ↔
      (lastUpdate ≠ 0 ∧ entryCount ≠ 0 ∧ (now : Int) - (lastUpdate : Int) ≤ 7200)) ∧
      ((Ready lastUpdate entryCount now).1 = 200 ∨
        (Ready lastUpdate entryCount now).1 = 503) := by
  unfold Ready
  by_cases h1 : lastUpdate = 0
  · simp [h1]
  · by_cases h2 : entryCount = 0
    · simp [h1, h2]
    · by_cases h3 : (now : Int) - (lastUpdate : Int) > 7200
      · simp [h1, h2, h3]
        omega
      · simp [h1, h2, h3]
        omega

/-! ## Ring buffer (src/logs/buffer.go) -/

/-- State of logs.RingBuffer.  The backing slice of nullable event
references is modelled as a function from indices to Option E. -/
structure RingBuffer (E : Type) where
  buffer : Nat → Option E
  capacity : Nat
  head : Nat
  tail : Nat
  size : Nat

/-- NewRingBuffer: a nil-filled slice with all cursors at zero. -/
def RingBuffer.new (E : Type) (capacity : Nat) : RingBuffer E :=
  ⟨fun _ => none, capacity, 0, 0, 0⟩

/-- RingBuffer.Add (lines 26-39): refuse when full, else write at tail,
advance tail modulo capacity and grow the size. -/
def RingBuffer.Add {E : Type} (rb : RingBuffer E) (e : E) : RingBuffer E × Bool :=
  if rb.capacity ≤ rb.size then (rb, false)
  else
    ({ rb with
        buffer := fun i => if i = rb.tail then some e else rb.buffer i,
        tail := (rb.tail + 1) % rb.capacity,
        size := rb.size + 1 }, true)

/-- The three statements shared by the bodies of Get, Drain and
DrainAll: nil the head slot, advance head modulo capacity, shrink the
size. -/
def RingBuffer.removeFront {E : Type} (rb : RingBuffer E) : RingBuffer E :=
  { rb with
      buffer := fun i => if i = rb.head then none else rb.buffer i,
      head := (rb.head + 1) % rb.capacity,
      size := rb.size - 1 }

/-- RingBuffer.Get (lines 41-55): on an empty buffer (nil, false), else
the head element and true. -/
def RingBuffer.Get {E : Type} (rb : RingBuffer E) : RingBuffer E × Option E × Bool :=
  if rb.size = 0 then (rb, none, false)
  else (rb.removeFront, rb.buffer rb.head, true)

/-- The count-bounded removal loop of RingBuffer.Drain. -/
def RingBuffer.drainLoop {E : Type} : RingBuffer E → Nat → RingBuffer E × List (Option E)
  | rb, 0 => (rb, [])
  | rb, n + 1 =>
    let e := rb.buffer rb.head
    let p := RingBuffer.drainLoop rb.removeFront n
    (p.1, e :: p.2)

/-- RingBuffer.Drain (lines 57-81): nil on empty, else remove
min(size, maxItems) items from the head.  maxItems is a Go int, so it
is modelled as Int; a negative bound drains nothing. -/
def RingBuffer.Drain {E : Type} (rb : RingBuffer E) (maxItems : Int) :
    RingBuffer E × List (Option E) :=
  if rb.size = 0 then (rb, [])
  else rb.drainLoop (min (rb.size : Int) maxItems).toNat

/-- RingBuffer.Size. -/
def RingBuffer.Size {E : Type} (rb : RingBuffer E) : Nat :=
  rb.size

/-- Structural well-formedness of a ring buffer: the size fits the
capacity and the cursors are in range and consistent. -/
def RingBuffer.WF {E : Type} (rb : RingBuffer E) : Prop :=
  rb.size ≤ rb.capacity ∧
    (0 < rb.capacity → rb.head < rb.capacity) ∧
    (0 < rb.capacity → rb.tail = (rb.head + rb.size) % rb.capacity)

/-- Abstraction of a ring buffer to the queue it stores, head first. -/
def RingBuffer.absQ {E : Type} (rb : RingBuffer E) : List (Option E) :=
  (List.range rb.size).map fun i => rb.buffer ((rb.head + i) % rb.capacity)

theorem mod_shift_inj (cap x a b : Nat) (hcap : 0 < cap) (ha : a < cap) (hb : b < cap)
    (h : (x + a) % cap = (x + b) % cap) : a = b := by
  have hm : a ≡ b [MOD cap] := (Nat.ModEq.refl x).add_left_cancel h
  have := hm.eq_of_lt_of_lt ha hb
  exact this

theorem absQ_new (E : Type) (capacity : Nat) : (RingBuffer.new E capacity).absQ = [] := by
  simp [RingBuffer.new, RingBuffer.absQ]

theorem wf_new (E : Type) (capacity : Nat) : (RingBuffer.new E capacity).WF := by
  refine ⟨Nat.zero_le _, fun h => h, fun h => ?_⟩
  simp [RingBuffer.new]

theorem add_full_spec {E : Type} (rb : RingBuffer E) (e : E)
    (hfull : rb.capacity ≤ rb.size) : rb.Add e = (rb, false) := by
  simp [RingBuffer.Add, hfull]

theorem add_spec {E : Type} (rb : RingBuffer E) (e : E) (hwf : rb.WF)
    (hlt : rb.size < rb.capacity) :
    (rb.Add e).2 = true ∧ (rb.Add e).1.WF ∧
      (rb.Add e).1.capacity = rb.capacity ∧ (rb.Add e).1.size = rb.size + 1 ∧
      (rb.Add e).1.absQ = rb.absQ ++ [some e] := by
  obtain ⟨hsc, hh, ht⟩ := hwf
  have hcap : 0 < rb.capacity := Nat.lt_of_le_of_lt (Nat.zero_le _) hlt
  have hh1 := hh hcap
  have ht1 := ht hcap
  have hnotfull : ¬ rb.capacity ≤ rb.size := Nat.not_le_of_lt hlt
  refine ⟨?_, ⟨?_, ?_, ?_⟩, ?_, ?_, ?_⟩
  · simp [RingBuffer.Add, hnotfull]
  · simp only [RingBuffer.Add, hnotfull, if_false]
    omega
  · intro h
    simp only [RingBuffer.Add, hnotfull, if_false]
    exact hh1
  · intro h
    simp only [RingBuffer.Add, hnotfull, if_false]
    rw [ht1, Nat.mod_add_mod]
    have harg : rb.head + rb.size + 1 = rb.head + (rb.size + 1) := by omega
    rw [harg]
  · simp [RingBuffer.Add, hnotfull]
  · simp [RingBuffer.Add, hnotfull]
  · simp only [RingBuffer.Add, hnotfull, if_false]
    rw [RingBuffer.absQ, RingBuffer.absQ]
    simp only [List.range_succ, List.map_append, List.map_cons, List.map_nil]
    congr 1
    · apply List.map_congr_left
      intro i hi
      have hilt : i < rb.size := List.mem_range.mp hi
      have hne : (rb.head + i) % rb.capacity ≠ rb.tail := by
        rw [ht1]
        intro hcontra
        have := mod_shift_inj rb.capacity rb.head i rb.size hcap
          (Nat.lt_trans hilt hlt) hlt hcontra
        omega
      simp [hne]
    · rw [ht1]
      simp

theorem removeFront_spec {E : Type} (rb : RingBuffer E) (hwf : rb.WF)
    (hs : 0 < rb.size) :
    rb.removeFront.WF ∧ rb.removeFront.capacity = rb.capacity ∧
      rb.removeFront.size = rb.size - 1 ∧
      rb.absQ = rb.buffer rb.head :: rb.removeFront.absQ := by
  obtain ⟨hsc, hh, ht⟩ := hwf
  have hcap : 0 < rb.capacity := Nat.lt_of_lt_of_le hs hsc
  have hh1 := hh hcap
  have ht1 := ht hcap
  refine ⟨⟨?_, ?_, ?_⟩, rfl, rfl, ?_⟩
  · simp only [RingBuffer.removeFront]
    omega
  · intro h
    simp only [RingBuffer.removeFront]
    exact Nat.mod_lt _ hcap
  · intro h
    simp only [RingBuffer.removeFront]
    rw [Nat.mod_add_mod]
    have harg : rb.head + 1 + (rb.size - 1) = rb.head + rb.size := by omega
    rw [harg]
    exact ht1
  · rw [RingBuffer.absQ, RingBuffer.absQ]
    have hsz : rb.size = (rb.size - 1) + 1 := by omega
    rw [hsz, List.range_succ_eq_map, List.map_cons, List.map_map]
    have hhead : (rb.head + 0) % rb.capacity = rb.head := by
      rw [Nat.add_zero]
      exact Nat.mod_eq_of_lt hh1
    rw [hhead]
    congr 1
    apply List.map_congr_left
    intro i hi
    have hilt : i < rb.size - 1 := List.mem_range.mp hi
    simp only [Function.comp, RingBuffer.removeFront, Nat.mod_add_mod]
    have harg : rb.head + 1 + i = rb.head + (i + 1) := by omega
    rw [harg]
    have hne : (rb.head + (i + 1)) % rb.capacity ≠ rb.head := by
      intro hcontra
      have hhead0 : (rb.head + 0) % rb.capacity = rb.head := by
        rw [Nat.add_zero]
        exact Nat.mod_eq_of_lt hh1
      have := mod_shift_inj rb.capacity rb.head (i + 1) 0 hcap
        (by omega) hcap (by rw [hcontra, hhead0])
      omega
    simp [hne]

theorem drainLoop_spec {E : Type} (n : Nat) (rb : RingBuffer E) (hwf : rb.WF)
    (hn : n ≤ rb.size) :
    (rb.drainLoop n).1.WF ∧ (rb.drainLoop n).1.capacity = rb.capacity ∧
      (rb.drainLoop n).1.size = rb.size - n ∧
      (rb.drainLoop n).2 = rb.absQ.take n ∧
      (rb.drainLoop n).1.absQ = rb.absQ.drop n := by
  induction n generalizing rb with
  | zero =>
    simp [RingBuffer.drainLoop]
    exact hwf
  | succ m ih =>
    have hs : 0 < rb.size := by omega
    obtain ⟨hwf1, hcap1, hsz1, habs1⟩ := removeFront_spec rb hwf hs
    have hm : m ≤ rb.removeFront.size := by omega
    obtain ⟨ihwf, ihcap, ihsz, ihtake, ihdrop⟩ := ih rb.removeFront hwf1 hm
    simp only [RingBuffer.drainLoop]
    refine ⟨ihwf, by rw [ihcap, hcap1], by rw [ihsz, hsz1]; omega, ?_, ?_⟩
    · rw [habs1, List.take_succ_cons, ihtake]
    · rw [habs1, List.drop_succ_cons, ihdrop]

theorem drain_spec {E : Type} (rb : RingBuffer E) (m : Int) (hwf : rb.WF) :
    (rb.Drain m).1.WF ∧ (rb.Drain m).1.capacity = rb.capacity ∧
      (rb.Drain m).1.size = rb.size - (min (rb.size : Int) m).toNat ∧
      (rb.Drain m).2 = rb.absQ.take (min (rb.size : Int) m).toNat ∧
      (rb.Drain m).1.absQ = rb.absQ.drop (min (rb.size : Int) m).toNat := by
  by_cases hz : rb.size = 0
  · have habs : rb.absQ = [] := by
      simp [RingBuffer.absQ, hz]
    simp [RingBuffer.Drain, hz, habs, hwf]
  · have hle : (min (rb.size : Int) m).toNat ≤ rb.size := by
      have h1 : min (rb.size : Int) m ≤ (rb.size : Int) := min_le_left _ _
      have h2 := Int.toNat_le_toNat h1
      simpa using h2
    have hspec := drainLoop_spec (min (rb.size : Int) m).toNat rb hwf hle
    simp only [RingBuffer.Drain, hz, if_false]
    exact hspec

theorem get_spec {E : Type} (rb : RingBuffer E) (hwf : rb.WF) (hs : 0 < rb.size) :
    rb.Get.1.WF ∧ rb.Get.1.capacity = rb.capacity ∧ rb.Get.1.size = rb.size - 1 ∧
      rb.Get.2 = (rb.absQ.head?.getD none, true) ∧
      rb.Get.1.absQ = rb.absQ.drop 1 := by
  obtain ⟨hwf1, hcap1, hsz1, habs1⟩ := removeFront_spec rb hwf hs
  have hz : ¬ rb.size = 0 := by omega
  simp only [RingBuffer.Get, hz, if_false]
  refine ⟨hwf1, hcap1, hsz1, ?_, ?_⟩
  · rw [habs1]
    simp
  · rw [habs1]
    simp

/-- Operations counted by the C7 accounting invariant. -/
inductive RBOp (E : Type) where
  | add : E → RBOp E
  | get : RBOp E
  | drain : Int → RBOp E

/-- One ring-buffer operation together with the accounting state
(number of Adds that returned true, number of items returned by Get and
Drain). -/
def RingBuffer.runOp {E : Type} (st : RingBuffer E × Nat × Nat) (op : RBOp E) :
    RingBuffer E × Nat × Nat :=
  match op with
  | RBOp.add e =>
    let p := st.1.Add e
    (p.1, st.2.1 + (if p.2 then 1 else 0), st.2.2)
  | RBOp.get =>
    let p := st.1.Get
    (p.1, st.2.1, st.2.2 + (if p.2.2 then 1 else 0))
  | RBOp.drain m =>
    let p := st.1.Drain m
    (p.1, st.2.1, st.2.2 + p.2.length)

/-- Run a sequence of operations against a fresh ring buffer. -/
def RingBuffer.run (E : Type) (capacity : Nat) (ops : List (RBOp E)) :
    RingBuffer E × Nat × Nat :=
  ops.foldl RingBuffer.runOp (RingBuffer.new E capacity, 0, 0)

/-- The reachable-state invariant: well-formed, fixed capacity, and the
size equals successful Adds minus returned items. -/
def GoodState {E : Type} (capacity : Nat) (st : RingBuffer E × Nat × Nat) : Prop :=
  st.1.WF ∧ st.1.capacity = capacity ∧ st.1.size + st.2.2 = st.2.1

theorem runOp_good {E : Type} (capacity : Nat) (st : RingBuffer E × Nat × Nat)
    (op : RBOp E) (h : GoodState capacity st) :
    GoodState capacity (RingBuffer.runOp st op) := by
  obtain ⟨hwf, hcap, hacc⟩ := h
  cases op with
  | add e =>
    by_cases hfull : st.1.capacity ≤ st.1.size
    · have hful := add_full_spec st.1 e hfull
      have hstep : RingBuffer.runOp st (RBOp.add e) = (st.1, st.2.1, st.2.2) := by
        simp [RingBuffer.runOp, hful]
      rw [hstep]
      exact ⟨hwf, hcap, hacc⟩
    · have hlt : st.1.size < st.1.capacity := by omega
      obtain ⟨hret, hwf2, hcap2, hsz2, _⟩ := add_spec st.1 e hwf hlt
      have hstep : RingBuffer.runOp st (RBOp.add e) =
          ((st.1.Add e).1, st.2.1 + 1, st.2.2) := by
        simp [RingBuffer.runOp, hret]
      rw [hstep]
      refine ⟨hwf2, by rw [hcap2, hcap], ?_⟩
      show (st.1.Add e).1.size + st.2.2 = st.2.1 + 1
      rw [hsz2]
      omega
  | get =>
    by_cases hz : st.1.size = 0
    · have hstep : RingBuffer.runOp st RBOp.get = (st.1, st.2.1, st.2.2) := by
        simp [RingBuffer.runOp, RingBuffer.Get, hz]
      rw [hstep]
      exact ⟨hwf, hcap, hacc⟩
    · obtain ⟨hwf2, hcap2, hsz2, hret2, _⟩ := get_spec st.1 hwf (by omega)
      have hb : st.1.Get.2.2 = true := by rw [hret2]
      have hstep : RingBuffer.runOp st RBOp.get =
          (st.1.Get.1, st.2.1, st.2.2 + 1) := by
        simp [RingBuffer.runOp, hb]
      rw [hstep]
      refine ⟨hwf2, by rw [hcap2, hcap], ?_⟩
      show st.1.Get.1.size + (st.2.2 + 1) = st.2.1
      rw [hsz2]
      omega
  | drain m =>
    obtain ⟨hwf2, hcap2, hsz2, hret2, _⟩ := drain_spec st.1 m hwf
    have hle : (min (st.1.size : Int) m).toNat ≤ st.1.size := by
      have h1 : min (st.1.size : Int) m ≤ (st.1.size : Int) := min_le_left _ _
      have h2 := Int.toNat_le_toNat h1
      simpa using h2
    have hlen : (st.1.Drain m).2.length = (min (st.1.size : Int) m).toNat := by
      rw [hret2, List.length_take]
      have habslen : st.1.absQ.length = st.1.size := by
        simp [RingBuffer.absQ]
      omega
    have hstep : RingBuffer.runOp st (RBOp.drain m) =
        ((st.1.Drain m).1, st.2.1, st.2.2 + (st.1.Drain m).2.length) := rfl
    rw [hstep]
    refine ⟨hwf2, by rw [hcap2, hcap], ?_⟩
    show (st.1.Drain m).1.size + (st.2.2 + (st.1.Drain m).2.length) = st.2.1
    rw [hsz2, hlen]
    omega

theorem foldl_good {E : Type} (capacity : Nat) (ops : List (RBOp E))
    (st : RingBuffer E × Nat × Nat) (h : GoodState capacity st) :
    GoodState capacity (ops.foldl RingBuffer.runOp st) := by
  induction ops generalizing st with
  | nil => exact h
  | cons op ops ih => exact ih _ (runOp_good capacity st op h)

theorem run_good {E : Type} (capacity : Nat) (ops : List (RBOp E)) :
    GoodState capacity (RingBuffer.run E capacity ops) :=
  foldl_good capacity ops _ ⟨wf_new E capacity, rfl, rfl⟩

/-- Claim C7: for every sequence of ring-buffer operations starting
from a fresh buffer, Add returns false and leaves the buffer unchanged
when the size equals the capacity (no overwrite); a successful Add
appends to the tail of the stored queue; Drain(max) removes and returns
the first min(size, max) items of the stored queue, i.e. up to max
items in FIFO insertion order; and Size() always equals the number of
successful Adds minus the number of items returned by Get and Drain,
with Size() at most the capacity. -/
theorem c7_ring_buffer (E : Type) (capacity : Nat) (ops : List (RBOp E))
    (rb : RingBuffer E) (addsOk returned : Nat)
    (hrun : RingBuffer.run E capacity ops = (rb, addsOk, returned)) :
    rb.Size + returned = addsOk ∧ rb.Size ≤ capacity ∧
      (∀ e : E, rb.Size = capacity → rb.Add e = (rb, false)) ∧
      (∀ e : E, rb.Size < capacity →
        (rb.Add e).2 = true ∧ (rb.Add e).1.absQ = rb.absQ ++ [some e]) ∧
      (∀ m : Int, (rb.Drain m).2 = rb.absQ.take (min (rb.Size : Int) m).toNat ∧
        (rb.Drain m).1.absQ = rb.absQ.drop (min (rb.Size : Int) m).toNat) := by
  have hgood := run_good capacity ops (E := E)
  rw [hrun] at hgood
  obtain ⟨hwf, hcap, hacc⟩ := hgood
  dsimp only at hwf hcap hacc
  simp only [RingBuffer.Size]
  refine ⟨hacc, ?_, ?_, ?_, ?_⟩
  · rw [← hcap]
    exact hwf.1
  · intro e hfull
    refine add_full_spec rb e ?_
    omega
  · intro e hlt
    obtain ⟨h1, _, _, _, h5⟩ := add_spec rb e hwf (by omega)
    exact ⟨h1, h5⟩
  · intro m
    obtain ⟨_, _, _, h4, h5⟩ := drain_spec rb m hwf
    exact ⟨h4, h5⟩

/-- Concrete instantiation of the C7 theorem: after one successful Add
into a capacity-1 buffer, the accounting balances, a second Add is
refused without change, and draining returns the single stored item. -/
theorem c7_ring_buffer_witness :
    (RingBuffer.run Nat 1 [RBOp.add 5]).1.Size + (RingBuffer.run Nat 1 [RBOp.add 5]).2.2 =
        (RingBuffer.run Nat 1 [RBOp.add 5]).2.1 ∧
      (RingBuffer.run Nat 1 [RBOp.add 5]).1.Add 7 =
        ((RingBuffer.run Nat 1 [RBOp.add 5]).1, false) ∧
      ((RingBuffer.run Nat 1 [RBOp.add 5]).1.Drain 3).2 = [some 5] := by
  have h := c7_ring_buffer Nat 1 [RBOp.add 5] (RingBuffer.run Nat 1 [RBOp.add 5]).1
    (RingBuffer.run Nat 1 [RBOp.add 5]).2.1 (RingBuffer.run Nat 1 [RBOp.add 5]).2.2 rfl
  refine ⟨h.1, h.2.2.1 7 (by decide), ?_⟩
  have h2 := (h.2.2.2.2 3).1
  rw [h2]
  decide

/-! ## Leaky bucket (src/unnamed/part_003) -/

/-- Modelled from the spec: utils.MinInt64 is a repository helper whose
file is not under src/; per the wording of the spec that refill never
exceeds capacity it is the minimum of two int64 values. -/
def MinInt64 (a b : Int) : Int := min a b

/-- State of logs.LeakyBucket.  Instants are nanoseconds since an
arbitrary origin; int64 fields are Int. -/
structure LeakyBucket where
  capacity : Int
  tokens : Int
  refillRate : Int
  lastRefill : Nat

/-- NewLeakyBucket: starts full, stamped with the current instant. -/
def NewLeakyBucket (capacity refillRate : Int) (now : Nat) : LeakyBucket :=
  ⟨capacity, capacity, refillRate, now⟩

/-- The whole-token accrual computed by refill:
int64(elapsed.Seconds() * float64(refillRate)).  The float64 product is
modelled exactly as the rational elapsedNs * rate / 1e9 truncated to an
integer; elapsed models the monotonic-clock difference now - lastRefill
(never negative, hence Nat subtraction). -/
def LeakyBucket.tokensToAdd (lb : LeakyBucket) (now : Nat) : Int :=
  ((now - lb.lastRefill : Nat) : Int) * lb.refillRate / 1000000000

/-- LeakyBucket.refill (lines 45-54): add the accrued whole tokens,
capped at capacity, and advance lastRefill — but only when at least one
whole token accrued. -/
def LeakyBucket.refill (lb : LeakyBucket) (now : Nat) : LeakyBucket :=
  if 0 < lb.tokensToAdd now then
    { lb with
        tokens := MinInt64 lb.capacity (lb.tokens + lb.tokensToAdd now),
        lastRefill := now }
  else lb

/-- LeakyBucket.Allow (lines 27-39). -/
def LeakyBucket.Allow (lb : LeakyBucket) (now : Nat) (tokens : Int) :
    LeakyBucket × Bool :=
  let lb1 := lb.refill now
  if tokens ≤ lb1.tokens then ({ lb1 with tokens := lb1.tokens - tokens }, true)
  else (lb1, false)

/-- LeakyBucket.AvailableTokens (lines 56-62). -/
def LeakyBucket.AvailableTokens (lb : LeakyBucket) (now : Nat) :
    LeakyBucket × Int :=
  (lb.refill now, (lb.refill now).tokens)

/-- LeakyBucket.WaitTime (lines 72-85); the returned duration is in
nanoseconds, with the float division modelled exactly as a truncated
rational. -/
def LeakyBucket.WaitTime (lb : LeakyBucket) (now : Nat) (tokens : Int) :
    LeakyBucket × Int :=
  let lb1 := lb.refill now
  if tokens ≤ lb1.tokens then (lb1, 0)
  else (lb1, (tokens - lb1.tokens) * 1000000000 / lb.refillRate)

/-- The three public operations that touch the bucket state, each
stamped with the instant at which it runs. -/
inductive LBOp where
  | allow : Nat → Int → LBOp
  | wait : Nat → Int → LBOp
  | avail : Nat → LBOp

/-- Requests are for a non-negative number of tokens (the shipper only
ever calls Allow(1) and WaitTime(1)). -/
def LBOp.wfReq : LBOp → Prop
  | LBOp.allow _ n => 0 ≤ n
  | _ => True

/-- Apply one operation, keeping the state it leaves behind. -/
def LeakyBucket.applyOp (lb : LeakyBucket) : LBOp → LeakyBucket
  | LBOp.allow now n => (lb.Allow now n).1
  | LBOp.wait now n => (lb.WaitTime now n).1
  | LBOp.avail now => (lb.AvailableTokens now).1

/-- Run a sequence of operations. -/
def LeakyBucket.runOps (lb : LeakyBucket) (ops : List LBOp) : LeakyBucket :=
  ops.foldl LeakyBucket.applyOp lb

/-- The token invariant together with the constancy of capacity. -/
def LBInv (capacity : Int) (lb : LeakyBucket) : Prop :=
  0 ≤ lb.tokens ∧ lb.tokens ≤ lb.capacity ∧ lb.capacity = capacity

theorem refill_inv (capacity : Int) (lb : LeakyBucket) (now : Nat)
    (h : LBInv capacity lb) : LBInv capacity (lb.refill now) := by
  obtain ⟨h0, h1, h2⟩ := h
  rw [LeakyBucket.refill]
  by_cases hadd : 0 < lb.tokensToAdd now
  · simp only [hadd, if_true]
    refine ⟨?_, ?_, h2⟩
    · have hc : (0 : Int) ≤ lb.capacity := le_trans h0 h1
      exact le_min hc (by omega)
    · exact min_le_left _ _
  · simp only [hadd, if_false]
    exact ⟨h0, h1, h2⟩

theorem applyOp_inv (capacity : Int) (lb : LeakyBucket) (op : LBOp)
    (hop : op.wfReq) (h : LBInv capacity lb) :
    LBInv capacity (lb.applyOp op) := by
  cases op with
  | allow now n =>
    obtain ⟨h0, h1, h2⟩ := refill_inv capacity lb now h
    have hn : (0 : Int) ≤ n := hop
    simp only [LeakyBucket.applyOp, LeakyBucket.Allow]
    by_cases hc : n ≤ (lb.refill now).tokens
    · simp only [hc, if_true]
      exact ⟨by dsimp only; omega, by dsimp only; omega, h2⟩
    · simp only [hc, if_false]
      exact ⟨h0, h1, h2⟩
  | wait now n =>
    obtain ⟨h0, h1, h2⟩ := refill_inv capacity lb now h
    simp only [LeakyBucket.applyOp, LeakyBucket.WaitTime]
    by_cases hc : n ≤ (lb.refill now).tokens
    · simp only [hc, if_true]
      exact ⟨h0, h1, h2⟩
    · simp only [hc, if_false]
      exact ⟨h0, h1, h2⟩
  | avail now =>
    exact refill_inv capacity lb now h

theorem runOps_inv (capacity : Int) (lb : LeakyBucket) (ops : List LBOp)
    (hops : ∀ op ∈ ops, op.wfReq) (h : LBInv capacity lb) :
    LBInv capacity (lb.runOps ops) := by
  induction ops generalizing lb with
  | nil => exact h
  | cons op ops ih =>
    exact ih (lb.applyOp op)
      (fun o ho => hops o (List.mem_cons_of_mem op ho))
      (applyOp_inv capacity lb op (hops op (List.mem_cons_self op ops)) h)

/-- Claim C6: starting from a fresh bucket with non-negative capacity,
any sequence of Allow, WaitTime and AvailableTokens calls (each Allow
asking for a non-negative token count) keeps 0 ≤ tokens ≤ capacity;
lazy refill never raises tokens above the capacity; refill truncates
the accrued elapsed·rate quantity to whole tokens and advances
lastRefill exactly when at least one whole token is added, leaving the
state — and hence the fractional accrual base — untouched otherwise. -/
theorem c6_leaky_bucket (capacity refillRate : Int) (t0 : Nat) (ops : List LBOp)
    (hcap : 0 ≤ capacity) (hops : ∀ op ∈ ops, op.wfReq) :
    (0 ≤ ((NewLeakyBucket capacity refillRate t0).runOps ops).tokens ∧
      ((NewLeakyBucket capacity refillRate t0).runOps ops).tokens ≤ capacity) ∧
      (∀ lb : LeakyBucket, ∀ now : Nat,
        lb.tokens ≤ lb.capacity → (lb.refill now).tokens ≤ lb.capacity) ∧
      (∀ lb : LeakyBucket, ∀ now : Nat,
        lb.tokensToAdd now =
          ((now - lb.lastRefill : Nat) : Int) * lb.refillRate / 1000000000 ∧
        (0 < lb.tokensToAdd now → (lb.refill now).lastRefill = now) ∧
        (lb.tokensToAdd now ≤ 0 → lb.refill now = lb)) := by
  refine ⟨?_, ?_, ?_⟩
  · have hstart : LBInv capacity (NewLeakyBucket capacity refillRate t0) :=
      ⟨hcap, le_refl _, rfl⟩
    obtain ⟨h0, h1, h2⟩ := runOps_inv capacity _ ops hops hstart
    rw [h2] at h1
    exact ⟨h0, h1⟩
  · intro lb now h1
    rw [LeakyBucket.refill]
    by_cases hadd : 0 < lb.tokensToAdd now
    · simp only [hadd, if_true]
      exact min_le_left _ _
    · simp only [hadd, if_false]
      exact h1
  · intro lb now
    refine ⟨rfl, ?_, ?_⟩
    · intro hadd
      rw [LeakyBucket.refill]
      simp only [hadd, if_true]
    · intro hle
      have hadd : ¬ 0 < lb.tokensToAdd now := by omega
      rw [LeakyBucket.refill]
      simp only [hadd, if_false]

/-- Concrete instantiation of the C6 theorem: a bucket of capacity 10
and rate 100 tokens/s, after an Allow(1) at t0 + 5ms, holds between 0
and 10 tokens. -/
theorem c6_leaky_bucket_witness :
    0 ≤ ((NewLeakyBucket 10 100 0).runOps [LBOp.allow 5000000 1]).tokens ∧
      ((NewLeakyBucket 10 100 0).runOps [LBOp.allow 5000000 1]).tokens ≤ 10 := by
  have h := c6_leaky_bucket 10 100 0 [LBOp.allow 5000000 1] (by decide)
    (by
      intro op hop
      simp only [List.mem_singleton] at hop
      rw [hop]
      exact (by decide : (0 : Int) ≤ 1))
  exact h.1

/-! ## Log shipper circuit breaker (src/unnamed/part_002) -/

/-- circuitBreakerThreshold constant (line 26). -/
def circuitBreakerThreshold : Nat := 10

/-- circuitBreakerTimeout constant (line 27), in seconds. -/
def circuitBreakerTimeout : Nat := 60

/-- The circuit-breaker fields of LogShipper: failureCount
(atomic.Int32 — only values from 0 up are reachable, far below any
wraparound), circuitOpen, and lastFailure in seconds. -/
structure Circuit where
  failureCount : Nat
  circuitOpen : Bool
  lastFailure : Nat

/-- LogShipper.isCircuitOpen (lines 327-339): a closed circuit reports
false; an open one whose last failure is more than 60 s old is closed
and its failure count reset, reporting false; otherwise true.
time.Since(lastFailure) is now - lastFailure. -/
def Circuit.isCircuitOpen (s : Circuit) (now : Nat) : Circuit × Bool :=
  if !s.circuitOpen then (s, false)
  else if circuitBreakerTimeout < now - s.lastFailure then
    ({ s with circuitOpen := false, failureCount := 0 }, false)
  else (s, true)

/-- LogShipper.recordFailure (lines 341-349). -/
def Circuit.recordFailure (s : Circuit) (now : Nat) : Circuit :=
  let count := s.failureCount + 1
  let s1 := { s with failureCount := count, lastFailure := now }
  if circuitBreakerThreshold ≤ count then { s1 with circuitOpen := true } else s1

/-- LogShipper.recordSuccess (lines 351-354). -/
def Circuit.recordSuccess (s : Circuit) : Circuit :=
  { s with failureCount := 0, circuitOpen := false }

/-- Record one failure per instant in the list, in order. -/
def Circuit.recordFailures (s : Circuit) (times : List Nat) : Circuit :=
  times.foldl Circuit.recordFailure s

/-- The four ways LogShipper.shipBatch can end. -/
inductive ShipResult where
  | rebufferedOpen : ShipResult
  | rebufferedRate : ShipResult
  | sent : ShipResult
  | failedRebuffered : ShipResult
deriving DecidableEq, Repr

/-- Re-buffer a batch into the overflow ring buffer one event at a
time, counting the events dropped because the buffer refused them
(EventsDropped increments). -/
def rebufferAll {E : Type} (buf : RingBuffer E) (events : List E) :
    RingBuffer E × Nat :=
  events.foldl
    (fun (p : RingBuffer E × Nat) e =>
      let q := p.1.Add e
      (q.1, p.2 + (if q.2 then 0 else 1)))
    (buf, 0)

/-- LogShipper.shipBatch (lines 195-246), with the leaky-bucket
interaction abstracted to its outcome rateAllowed (WaitTime then
Allow(1)) and sendWithRetry abstracted to its outcome sendOk; the JSONL
encoding of events cannot fail in the model.  Returns the circuit
state, the overflow buffer, the number of dropped events and how the
call ended. -/
def shipBatch {E : Type} (s : Circuit) (buf : RingBuffer E) (events : List E)
    (now : Nat) (rateAllowed : Bool) (sendOk : Bool) :
    Circuit × RingBuffer E × Nat × ShipResult :=
  let p := s.isCircuitOpen now
  if p.2 then
    let q := rebufferAll buf events
    (p.1, q.1, q.2, ShipResult.rebufferedOpen)
  else if !rateAllowed then
    let q := rebufferAll buf events
    (p.1, q.1, q.2, ShipResult.rebufferedRate)
  else if sendOk then
    (p.1.recordSuccess, buf, 0, ShipResult.sent)
  else
    let q := rebufferAll buf events
    (p.1.recordFailure now, q.1, q.2, ShipResult.failedRebuffered)

theorem recordFailures_count (s : Circuit) (times : List Nat) :
    (s.recordFailures times).failureCount = s.failureCount + times.length ∧
      ((s.recordFailures times).circuitOpen =
        (s.circuitOpen ||
          (decide (circuitBreakerThreshold ≤ s.failureCount + times.length) &&
            decide (0 < times.length)))) := by
  induction times generalizing s with
  | nil =>
    simp [Circuit.recordFailures]
  | cons t ts ih =>
    have hstep : s.recordFailures (t :: ts) =
        (s.recordFailure t).recordFailures ts := rfl
    rw [hstep]
    obtain ⟨ih1, ih2⟩ := ih (s.recordFailure t)
    have hcount : (s.recordFailure t).failureCount = s.failureCount + 1 := by
      rw [Circuit.recordFailure]
      by_cases h : circuitBreakerThreshold ≤ s.failureCount + 1 <;> simp [h]
    have hopen : (s.recordFailure t).circuitOpen =
        (s.circuitOpen || decide (circuitBreakerThreshold ≤ s.failureCount + 1)) := by
      rw [Circuit.recordFailure]
      by_cases h : circuitBreakerThreshold ≤ s.failureCount + 1 <;> simp [h]
    constructor
    · rw [ih1, hcount]
      simp [List.length_cons]
      omega
    · rw [ih2, hcount, hopen]
      have hlen : (t :: ts).length = ts.length + 1 := rfl
      have hth : circuitBreakerThreshold = 10 := rfl
      rw [hlen, hth]
      cases hc : s.circuitOpen
      · simp only [Bool.false_or]
        by_cases h1 : (10 : Nat) ≤ s.failureCount + 1 <;>
          by_cases h2 : (10 : Nat) ≤ s.failureCount + 1 + ts.length <;>
          by_cases h3 : (10 : Nat) ≤ s.failureCount + (ts.length + 1) <;>
          by_cases h4 : 0 < ts.length <;>
            simp [h1, h2, h3, h4] <;> omega
      · simp

/-- Counterexample to claim C2 as stated: the claim says that after
60 s the next isOpen check makes the circuit merely half-open, with
full closing only on the next successful shipment.  In the code the
check alone fully closes the circuit: from an open circuit with 10
recorded failures, an isCircuitOpen check 61 s after the last failure
returns the completely closed state — circuitOpen false and
failureCount reset to 0, identical to the state recordSuccess would
produce — without any successful shipment. -/
theorem c2_circuit_counterexample :
    (Circuit.mk 10 true 0).isCircuitOpen 61 =
        (Circuit.mk 0 false 0, false) ∧
      (Circuit.mk 10 true 0).isCircuitOpen 61 =
        ((Circuit.mk 10 true 0).recordSuccess, false) := by
  constructor <;> rfl

/-- Claim C2 as amended: the circuit opens after exactly 10 consecutive
failures (9 leave it closed, the 10th opens it, and from a closed
counter-zero state it is open iff at least 10 failures were recorded);
a single success fully closes it; while a shipBatch call observes the
circuit open it re-buffers the whole batch and returns without
attempting I/O (its outcome is independent of the send result); and
once 60 s have passed since the last failure, the next isCircuitOpen
check fully closes the circuit and resets the failure count — no
successful shipment is needed. -/
theorem c2_circuit_breaker :
    (∀ l0 : Nat, ∀ times : List Nat,
      ((Circuit.mk 0 false l0).recordFailures times).circuitOpen = true ↔
        10 ≤ times.length) ∧
      (∀ s : Circuit, ∀ now : Nat,
        (s.recordFailure now).circuitOpen = true ↔
          (s.circuitOpen = true ∨ 10 ≤ s.failureCount + 1)) ∧
      (∀ s : Circuit, (s.recordSuccess.circuitOpen = false ∧
        s.recordSuccess.failureCount = 0)) ∧
      (∀ E : Type, ∀ s : Circuit, ∀ buf : RingBuffer E, ∀ events : List E,
        ∀ now : Nat, ∀ ra so so1 : Bool,
        (s.isCircuitOpen now).2 = true →
          (shipBatch s buf events now ra so =
            ((s.isCircuitOpen now).1, (rebufferAll buf events).1,
              (rebufferAll buf events).2, ShipResult.rebufferedOpen) ∧
            shipBatch s buf events now ra so = shipBatch s buf events now ra so1)) ∧
      (∀ s : Circuit, ∀ now : Nat, s.circuitOpen = true →
        circuitBreakerTimeout < now - s.lastFailure →
          s.isCircuitOpen now =
            ({ s with circuitOpen := false, failureCount := 0 }, false)) := by
  refine ⟨?_, ?_, ?_, ?_, ?_⟩
  · intro l0 times
    obtain ⟨h1, h2⟩ := recordFailures_count (Circuit.mk 0 false l0) times
    rw [h2]
    have hth : circuitBreakerThreshold = 10 := rfl
    rw [hth]
    by_cases ha : (10 : Nat) ≤ 0 + times.length <;>
      by_cases hb : 0 < times.length <;>
        simp [ha, hb] <;> omega
  · intro s now
    rw [Circuit.recordFailure]
    have hth : circuitBreakerThreshold = 10 := rfl
    rw [hth]
    by_cases h : (10 : Nat) ≤ s.failureCount + 1
    · simp [h]
    · simp [h]
  · intro s
    exact ⟨rfl, rfl⟩
  · intro E s buf events now ra so so1 hopen
    constructor
    · rw [shipBatch]
      simp only [hopen, if_true]
    · rw [shipBatch, shipBatch]
      simp only [hopen, if_true]
  · intro s now hopen htime
    rw [Circuit.isCircuitOpen]
    simp only [hopen, Bool.not_true, Bool.false_eq_true, if_false, htime, if_true]

/-- Concrete instantiation of the C2 theorem: ten failures open the
circuit, and an open circuit makes shipBatch re-buffer the batch with
an outcome independent of the send result. -/
theorem c2_circuit_breaker_witness :
    ((Circuit.mk 0 false 0).recordFailures
        [1, 2, 3, 4, 5, 6, 7, 8, 9, 10]).circuitOpen = true ∧
      shipBatch (Circuit.mk 10 true 50) (RingBuffer.new Nat 4) [7] 55 true false =
        shipBatch (Circuit.mk 10 true 50) (RingBuffer.new Nat 4) [7] 55 true true := by
  constructor
  · exact (c2_circuit_breaker.1 0 [1, 2, 3, 4, 5, 6, 7, 8, 9, 10]).mpr (by decide)
  · exact ((c2_circuit_breaker.2.2.2.1 Nat (Circuit.mk 10 true 50)
      (RingBuffer.new Nat 4) [7] 55 true false true) (by decide)).2

/-! ## Log shipper retries (src/unnamed/part_002, sendWithRetry) -/

/-- maxRetries constant (line 23). -/
def maxRetries : Nat := 5

/-- initialBackoff constant (line 24), in seconds. -/
def initialBackoff : Nat := 1

/-- maxBackoff constant (line 25), in seconds. -/
def maxBackoff : Nat := 30

/-- Modelled from the spec: utils.MinDuration is a repository helper
whose file is not under src/; per the wording of the spec that the backoff
is capped at 30 s it is the minimum of two durations. -/
def MinDuration (a b : Nat) : Nat := min a b

/-- isRetryableError (lines 388-390): every error is retryable. -/
def isRetryableError {E : Type} (_ : E) : Bool := true

/-- The retry loop of sendWithRetry (lines 248-271).  send gives the
outcome of attempt i (none is success, some e the error e); the first
argument is the remaining number of loop iterations, initially
maxRetries so that the loop runs for attempt = 0, ..., maxRetries - 1.
Returns the function result together with the list of sleeps performed,
in seconds. -/
def sendLoop {E : Type} (send : Nat → Option E) :
    Nat → Nat → Nat → Option E → Option E × List Nat
  | 0, _, _, lastErr => (lastErr, [])
  | fuel + 1, attempt, backoff, lastErr =>
    let sleeps : List Nat := if 0 < attempt then [backoff] else []
    let backoff1 := if 0 < attempt then MinDuration (backoff * 2) maxBackoff else backoff
    match send attempt with
    | none => (none, sleeps)
    | some err =>
      if isRetryableError err then
        let p := sendLoop send fuel (attempt + 1) backoff1 (some err)
        (p.1, sleeps ++ p.2)
      else (some err, sleeps)

/-- LogShipper.sendWithRetry: run the loop from attempt 0 with the
initial backoff and no last error, ignoring lastErr from before. -/
def sendWithRetry {E : Type} (send : Nat → Option E) : Option E × List Nat :=
  sendLoop send maxRetries 0 initialBackoff none

/-- Counterexample to claim C3 as stated: the claim says the backoff
sleeps 1 s, 2 s, 4 s, 8 s, 16 s between attempts; but 5 total attempts
leave only 4 gaps, and with every attempt failing the loop sleeps
exactly 1 s, 2 s, 4 s and 8 s — the 16 s value is computed but never
slept. -/
theorem c3_retry_counterexample :
    (sendWithRetry (fun _ => some (0 : Nat))).2 = [1, 2, 4, 8] ∧
      (sendWithRetry (fun _ => some (0 : Nat))).2 ≠ [1, 2, 4, 8, 16] := by
  constructor <;> decide

/-- Claim C3 as amended: sendWithRetry makes up to 5 total attempts,
sleeping 1 s, 2 s, 4 s, 8 s between consecutive attempts (the doubling
of the backoff is capped at 30 s, and every sleep performed is at most
30 s); every error is treated as retryable; if all 5 attempts fail the
error of the last attempt is returned after the four sleeps, and if
attempt k is the first success the result is success after the first k
sleeps of that schedule. -/
theorem c3_send_with_retry (E : Type) (send : Nat → Option E) :
    ((∀ i, i < 5 → (send i).isSome) →
      sendWithRetry send = (send 4, [1, 2, 4, 8])) ∧
      (∀ k, k < 5 → send k = none → (∀ i, i < k → (send i).isSome) →
        sendWithRetry send = (none, [1, 2, 4, 8].take k)) ∧
      (∀ e : E, isRetryableError e = true) ∧
      (∀ d, d ∈ (sendWithRetry send).2 → d ≤ maxBackoff) := by
  refine ⟨?_, ?_, fun e => rfl, ?_⟩
  · intro hall
    obtain ⟨e0, h0⟩ := Option.isSome_iff_exists.mp (hall 0 (by omega))
    obtain ⟨e1, h1⟩ := Option.isSome_iff_exists.mp (hall 1 (by omega))
    obtain ⟨e2, h2⟩ := Option.isSome_iff_exists.mp (hall 2 (by omega))
    obtain ⟨e3, h3⟩ := Option.isSome_iff_exists.mp (hall 3 (by omega))
    obtain ⟨e4, h4⟩ := Option.isSome_iff_exists.mp (hall 4 (by omega))
    simp [sendWithRetry, maxRetries, initialBackoff, sendLoop, h0, h1, h2, h3, h4,
      isRetryableError, MinDuration, maxBackoff]
  · intro k hk hsucc hbefore
    interval_cases k
    · simp [sendWithRetry, maxRetries, initialBackoff, sendLoop, hsucc]
    · obtain ⟨e0, h0⟩ := Option.isSome_iff_exists.mp (hbefore 0 (by omega))
      simp [sendWithRetry, maxRetries, initialBackoff, sendLoop, h0, hsucc,
        isRetryableError, MinDuration, maxBackoff]
    · obtain ⟨e0, h0⟩ := Option.isSome_iff_exists.mp (hbefore 0 (by omega))
      obtain ⟨e1, h1⟩ := Option.isSome_iff_exists.mp (hbefore 1 (by omega))
      simp [sendWithRetry, maxRetries, initialBackoff, sendLoop, h0, h1, hsucc,
        isRetryableError, MinDuration, maxBackoff]
    · obtain ⟨e0, h0⟩ := Option.isSome_iff_exists.mp (hbefore 0 (by omega))
      obtain ⟨e1, h1⟩ := Option.isSome_iff_exists.mp (hbefore 1 (by omega))
      obtain ⟨e2, h2⟩ := Option.isSome_iff_exists.mp (hbefore 2 (by omega))
      simp [sendWithRetry, maxRetries, initialBackoff, sendLoop, h0, h1, h2, hsucc,
        isRetryableError, MinDuration, maxBackoff]
    · obtain ⟨e0, h0⟩ := Option.isSome_iff_exists.mp (hbefore 0 (by omega))
      obtain ⟨e1, h1⟩ := Option.isSome_iff_exists.mp (hbefore 1 (by omega))
      obtain ⟨e2, h2⟩ := Option.isSome_iff_exists.mp (hbefore 2 (by omega))
      obtain ⟨e3, h3⟩ := Option.isSome_iff_exists.mp (hbefore 3 (by omega))
      simp [sendWithRetry, maxRetries, initialBackoff, sendLoop, h0, h1, h2, h3, hsucc,
        isRetryableError, MinDuration, maxBackoff]
  · intro d hd
    cases h0 : send 0 <;> cases h1 : send 1 <;> cases h2 : send 2 <;>
      cases h3 : send 3 <;> cases h4 : send 4 <;>
        simp [sendWithRetry, maxRetries, initialBackoff, sendLoop, h0, h1, h2, h3, h4,
          isRetryableError, MinDuration, maxBackoff] at hd ⊢ <;> omega

/-- Concrete instantiation of the C3 theorem: with every attempt
failing with error 9, the last error is returned after sleeping
1 s, 2 s, 4 s, 8 s. -/
theorem c3_send_with_retry_witness :
    sendWithRetry (fun _ => some (9 : Nat)) = (some 9, [1, 2, 4, 8]) := by
  have h := (c3_send_with_retry Nat (fun _ => some 9)).1 (fun i _ => rfl)
  exact h

/-! ## Token manager deleted latch (src/api/token_manager.go) -/

/-- The fields of the bootstrap response used by the token manager. -/
structure BootstrapResp where
  accessToken : String
  expiresIn : Int
  configURL : String
  logsURL : String

/-- Outcome of one BootstrapClient.Bootstrap call: success, a permanent
error (HTTP 410 Gone, IsPermanentError), or any other error. -/
inductive BootstrapOutcome where
  | success : BootstrapResp → BootstrapOutcome
  | permanentErr : BootstrapOutcome
  | transientErr : BootstrapOutcome

/-- Mutable state of api.TokenManager; instants are Int seconds. -/
structure TokenManager where
  currentToken : String
  tokenExpiry : Int
  configURL : String
  logsURL : String
  deploymentDeleted : Bool

/-- NewTokenManager: zero-valued fields. -/
def TokenManager.new : TokenManager := ⟨"", 0, "", "", false⟩

/-- The store of a successful bootstrap response (Initialize lines
51-56, refresh lines 141-146). -/
def TokenManager.applyBootstrap (tm : TokenManager) (now : Int)
    (r : BootstrapResp) : TokenManager :=
  { tm with
      currentToken := r.accessToken,
      tokenExpiry := now + r.expiresIn,
      configURL := r.configURL,
      logsURL := r.logsURL }

/-- TokenManager.Initialize (lines 37-63): a permanent (410) bootstrap
error sets the deleted latch; any error is returned; success stores the
response.  The Bool result is the error indicator. -/
def TokenManager.initializeTM (tm : TokenManager) (now : Int)
    (r : BootstrapOutcome) : TokenManager × Bool :=
  match r with
  | BootstrapOutcome.permanentErr => ({ tm with deploymentDeleted := true }, true)
  | BootstrapOutcome.transientErr => (tm, true)
  | BootstrapOutcome.success resp => (tm.applyBootstrap now resp, false)

/-- TokenManager.refresh (lines 127-152): same state effect as
Initialize. -/
def TokenManager.refresh (tm : TokenManager) (now : Int)
    (r : BootstrapOutcome) : TokenManager × Bool :=
  match r with
  | BootstrapOutcome.permanentErr => ({ tm with deploymentDeleted := true }, true)
  | BootstrapOutcome.transientErr => (tm, true)
  | BootstrapOutcome.success resp => (tm.applyBootstrap now resp, false)

/-- One timer fire of StartRefreshLoop (lines 80-106): if the
deployment is deleted the loop stops without refreshing, otherwise it
refreshes. -/
def TokenManager.refreshLoopTick (tm : TokenManager) (now : Int)
    (r : BootstrapOutcome) : TokenManager :=
  if tm.deploymentDeleted then tm else (tm.refresh now r).1

/-- TokenManager.GetTokenWithMinValidity (lines 184-210): return the
current token if it is valid for longer than minValidity, else refresh
(with outcome r) and return whatever token is then held. -/
def TokenManager.getTokenWithMinValidity (tm : TokenManager)
    (now minValidity : Int) (r : BootstrapOutcome) : TokenManager × String :=
  if minValidity < tm.tokenExpiry - now then (tm, tm.currentToken)
  else
    let p := tm.refresh now r
    (p.1, p.1.currentToken)

/-- TokenManager.ForceRefresh (lines 220-225). -/
def TokenManager.forceRefresh (tm : TokenManager) (now : Int)
    (r : BootstrapOutcome) : TokenManager :=
  (tm.refresh now r).1

/-- The token-manager operations of claim C8, each with the instant it
runs at and the bootstrap outcome the control plane answers with. -/
inductive TMOp where
  | initOp : Int → BootstrapOutcome → TMOp
  | refreshOp : Int → BootstrapOutcome → TMOp
  | loopTick : Int → BootstrapOutcome → TMOp
  | getMinValidity : Int → Int → BootstrapOutcome → TMOp
  | forceOp : Int → BootstrapOutcome → TMOp

/-- Apply one token-manager operation to the state. -/
def TokenManager.applyOp (tm : TokenManager) : TMOp → TokenManager
  | TMOp.initOp now r => (tm.initializeTM now r).1
  | TMOp.refreshOp now r => (tm.refresh now r).1
  | TMOp.loopTick now r => tm.refreshLoopTick now r
  | TMOp.getMinValidity now minV r => (tm.getTokenWithMinValidity now minV r).1
  | TMOp.forceOp now r => tm.forceRefresh now r

/-- Run a sequence of token-manager operations. -/
def TokenManager.runOps (tm : TokenManager) (ops : List TMOp) : TokenManager :=
  ops.foldl TokenManager.applyOp tm

theorem refresh_latch_mono (tm : TokenManager) (now : Int) (r : BootstrapOutcome)
    (h : tm.deploymentDeleted = true) :
    (tm.refresh now r).1.deploymentDeleted = true := by
  cases r <;> simp [TokenManager.refresh, TokenManager.applyBootstrap, h]

theorem applyOp_latch_mono (tm : TokenManager) (op : TMOp)
    (h : tm.deploymentDeleted = true) :
    (tm.applyOp op).deploymentDeleted = true := by
  cases op with
  | initOp now r =>
    cases r <;> simp [TokenManager.applyOp, TokenManager.initializeTM,
      TokenManager.applyBootstrap, h]
  | refreshOp now r =>
    exact refresh_latch_mono tm now r h
  | loopTick now r =>
    simp only [TokenManager.applyOp, TokenManager.refreshLoopTick, h, if_true]
    try exact h
  | getMinValidity now minV r =>
    simp only [TokenManager.applyOp, TokenManager.getTokenWithMinValidity]
    by_cases hc : minV < tm.tokenExpiry - now
    · simp only [hc, if_true]
      exact h
    · simp only [hc, if_false]
      exact refresh_latch_mono tm now r h
  | forceOp now r =>
    exact refresh_latch_mono tm now r h

/-- Claim C8: the deployment-deleted latch is monotone — once it is
set, no sequence of token-manager operations (Initialize, refresh,
refresh-loop ticks, GetTokenWithMinValidity, ForceRefresh), whatever
instants and control-plane outcomes they see, ever resets it. -/
theorem c8_deleted_latch_monotone (tm : TokenManager) (ops : List TMOp)
    (h : tm.deploymentDeleted = true) :
    (tm.runOps ops).deploymentDeleted = true := by
  induction ops generalizing tm with
  | nil => exact h
  | cons op ops ih =>
    exact ih (tm.applyOp op) (applyOp_latch_mono tm op h)

/-- Concrete instantiation of the C8 theorem: a deleted manager stays
deleted across a successful refresh, a loop tick and a forced
refresh. -/
theorem c8_deleted_latch_monotone_witness :
    ((TokenManager.mk "" 0 "" "" true).runOps
        [TMOp.refreshOp 5 (BootstrapOutcome.success (BootstrapResp.mk "t" 300 "c" "l")),
          TMOp.loopTick 10 BootstrapOutcome.transientErr,
          TMOp.forceOp 20 BootstrapOutcome.permanentErr]).deploymentDeleted = true :=
  c8_deleted_latch_monotone (TokenManager.mk "" 0 "" "" true)
    [TMOp.refreshOp 5 (BootstrapOutcome.success (BootstrapResp.mk "t" 300 "c" "l")),
      TMOp.loopTick 10 BootstrapOutcome.transientErr,
      TMOp.forceOp 20 BootstrapOutcome.permanentErr] rfl

end ForwardAuth
